import Mathlib

/-!
# Verification of the `gothrow` rewrite engine

Shallow embedding of the error-discard rewrite pass of `gothrow`
(`processFile` and its helpers in the engine source file, referred to below
by its source line numbers).  The pass walks a type-resolved Go syntax
tree, finds assignment statements in which an error-typed call result is
discarded with `_`, renames the discard slot to `err`, decides between the
`:=` and `=` assignment operators using a per-function ledger plus a
`types.Scope` lookup, and inserts an `if err != nil { ... }` check after
the rewritten statement.

Modelling conventions:
* Loader-provided type information (`go/types`) is baked into the tree:
  each call expression carries the shape of `info.TypeOf(call)`
  (`GoCallType`), each left-hand identifier carries whether
  `info.Defs[id] != nil` (`isDef`), and the `types.Scope` consulted by the
  pass is a plain set of names.
* The two traversals of `processFile` (pass 1 collecting `mods` sorted by
  position, pass 2 re-walking the tree and applying the mod whose
  statement pointer matches) are fused into one pre-order rewrite:
  `astutil.Apply` visits statements in source-position order, so the
  position-sorted mod list is exactly the pre-order sequence of statements
  satisfying the pass-1 criteria, and pass 2 consumes it in that same
  order (nodes inserted with `Cursor.InsertAfter` are not walked, and the
  per-statement in-place mutations never change which later statements
  match).  The per-statement body of pass 2 (source lines 121-167) is
  `applyAssign` below.
* `findEnclosingFunc` scans only the file's top-level declarations by
  source position; inside the fused traversal this always resolves to the
  top-level `FuncDecl` being walked (function literals are not
  declarations), so the traversal passes that declaration down; the
  positional lookup itself is embedded separately and its agreement with
  the traversal is claim C10.
* `innermostScope` is embedded over the node path it inspects; inside
  `processFile` we use the file scope directly, justified by the lemma
  `innermostScope_last_some` (the source loop scans the innermost-first
  path from the root end, so it returns the scope of the outermost node,
  the `*ast.File`, which always has an entry in `info.Scopes`).
-/

namespace Gothrow

/-- A resolved `go/types` type, as the engine observes it: its printed
name and whether `types.Implements(t, error)` holds (the error-capability
oracle is external to the engine). -/
structure GoResolvedType where
  name : String
  implementsError : Bool
deriving Repr, DecidableEq

/-- Shape of `info.TypeOf(call)` for the single right-hand call
(`getErrorIndex`, lines 325-333): a `*types.Signature` (the call returns
a function), a `*types.Tuple` (multi-result call), a single bare type, or
`nil`. -/
inductive GoCallType where
  | signature (results : List GoResolvedType)
  | tuple (results : List GoResolvedType)
  | single (t : GoResolvedType)
  | noType
deriving Repr, DecidableEq

/-- A right-hand-side expression of an assignment: either a call
expression annotated with its resolved type, or anything else. -/
inductive RhsExpr where
  | call (ct : GoCallType)
  | nonCall
deriving Repr, DecidableEq

/-- `token` literal kinds used by `zeroValue` (STRING/INT/FLOAT). -/
inductive LitKind where
  | string
  | int
  | float
deriving Repr, DecidableEq

/-- Declared (syntactic) result types, the shapes distinguished by
`zeroValue` and `canReturnError`: `*ast.Ident`, the pointer/slice/map/
channel/interface/function shapes (all sent to `nil` by `zeroValue`),
`*ast.SelectorExpr` for qualified names, and a default shape. -/
inductive TypeExpr where
  | ident (name : String)
  | star
  | array
  | mapT
  | chanT
  | interfaceT
  | funcT
  | selector (pkg : String) (sel : String)
  | otherT
deriving Repr, DecidableEq

/-- Expressions, covering the shapes the pass reads (left-hand targets)
and the shapes it synthesizes (`createErrorCheck`,
`createErrorCheckForMain`, `zeroValue`).  An `ident` carries its name and
whether the original, pre-mutation `info.Defs` has an object for it
(idents synthesized by the pass have no `Defs` entry, hence `false`). -/
inductive Expr where
  | ident (name : String) (isDef : Bool)
  | basicLit (kind : LitKind) (value : String)
  | compositeLit (t : TypeExpr)
  | binaryNeq (x : Expr) (y : Expr)
  | callE (funE : Expr) (args : List Expr)
  | selectorE (recv : String) (sel : String)
  | otherExpr
deriving Repr

/-- The assignment operators the pass distinguishes: `token.DEFINE`
(`:=`), `token.ASSIGN` (`=`), and every other assignment token (skipped
by the pass-1 filter at line 76). -/
inductive Tok where
  | define
  | assign
  | otherTok
deriving Repr, DecidableEq

/-- An `*ast.AssignStmt`: operator, left-hand targets, right-hand
expressions. -/
structure AssignStmt where
  tok : Tok
  lhs : List Expr
  rhs : List RhsExpr
deriving Repr

/-- Statements, covering what the pass visits and synthesizes.
`ifStmt`/`funcLit` bodies are walked by `astutil.Apply`; a `funcLit`
statement stands for a statement containing a function literal with the
given body (the literal is not a top-level declaration, so
`findEnclosingFunc` resolves candidates inside it to the containing
`FuncDecl`). -/
inductive Stmt where
  | assign (a : AssignStmt)
  | ifStmt (cond : Expr) (body : List Stmt)
  | ret (results : List Expr)
  | exprStmt (e : Expr)
  | funcLit (body : List Stmt)
  | skip
deriving Repr

/-- An `*ast.Field` of a result list: grouped names and one declared
type (e.g. `a, b int` is one field with two names). -/
structure Field where
  names : List String
  type : TypeExpr
deriving Repr, DecidableEq

/-- A top-level `*ast.FuncDecl`: name, declared result field list
(`fn.Type.Results`, `none` when absent), body. -/
structure FuncDecl where
  name : String
  results : Option (List Field)
  body : List Stmt
deriving Repr

/-- A compilation unit: its top-level function declarations in source
order and its import set (paths).  Non-function declarations carry no
statements the pass rewrites and are omitted. -/
structure File where
  decls : List FuncDecl
  imports : List String
deriving Repr

/-- A `types.Scope`: the set of names it defines (`scope.Lookup(name)`
is non-nil iff the name is a member). -/
structure GoScope where
  names : List String
deriving Repr, DecidableEq

/-- `scope.Lookup(name) != nil`.  `types.Scope.Lookup` consults only the
scope itself, never its parents. -/
def lookupScope (s : GoScope) (n : String) : Bool :=
  s.names.contains n

/-- `isErrorType` (lines 194-205): `nil` types are never error-like;
otherwise ask the oracle whether the type implements the universe
`error` interface. -/
def isErrorType (t : Option GoResolvedType) : Bool :=
  match t with
  | none => false
  | some t => t.implementsError

/-- The scan loop of `getErrorIndex` (lines 338-343): the first index of
the result tuple whose type is error-like, `none` when there is none
(the source returns `-1`). -/
def firstErrorIndex : List GoResolvedType → Option Nat
  | [] => none
  | t :: rest =>
      if isErrorType (some t) then some 0
      else (firstErrorIndex rest).map (fun i => i + 1)

/-- `getErrorIndex` (lines 317-344): requires exactly one right-hand
expression which is a call; takes the result tuple from
`info.TypeOf(call)` when it is a `*types.Signature` (its `Results()`) or
a `*types.Tuple`, otherwise gives up; then returns the first error-like
index. -/
def getErrorIndex (assign : AssignStmt) : Option Nat :=
  match assign.rhs with
  | [RhsExpr.call ct] =>
      match ct with
      | GoCallType.signature rs => firstErrorIndex rs
      | GoCallType.tuple rs => firstErrorIndex rs
      | _ => none
  | _ => none

/-- `isIgnored` (lines 386-389): the expression is an identifier named
`_`. -/
def isIgnored (e : Expr) : Bool :=
  match e with
  | Expr.ident n _ => n == "_"
  | _ => false

/-- `anyOtherNewVariables` (lines 346-358): some left-hand identifier at
an index other than `errIdx` has a (pre-mutation) `info.Defs` object,
i.e. is a genuinely new binding of the original statement. -/
def anyOtherNewVariables (assign : AssignStmt) (errIdx : Nat) : Bool :=
  (List.range assign.lhs.length).any (fun i =>
    if i == errIdx then false
    else
      match assign.lhs.getD i Expr.otherExpr with
      | Expr.ident _ isDef => isDef
      | _ => false)

/-- `canReturnError` (lines 207-220): the declared result list is
non-empty and its last field's type is syntactically the identifier
`error` (the source comments that this is a simplistic check that does
not use type information). -/
def canReturnError (fn : FuncDecl) : Bool :=
  match fn.results with
  | none => false
  | some rs =>
      match rs.getLast? with
      | none => false
      | some lastResult =>
          match lastResult.type with
          | TypeExpr.ident n => n == "error"
          | _ => false

/-- `zeroValue` (lines 265-288): dispatch on the declared type's
syntactic shape. -/
def zeroValue (t : TypeExpr) : Expr :=
  match t with
  | TypeExpr.ident n =>
      if n == "string" then Expr.basicLit LitKind.string "\x22\x22"
      else if (["int", "int8", "int16", "int32", "int64", "uint", "uint8",
                "uint16", "uint32", "uint64", "uintptr", "byte",
                "rune"].contains n) then Expr.basicLit LitKind.int "0"
      else if (["float32", "float64"].contains n) then
        Expr.basicLit LitKind.float "0"
      else if n == "bool" then Expr.ident "false" false
      else Expr.compositeLit (TypeExpr.ident n)
  | TypeExpr.star => Expr.ident "nil" false
  | TypeExpr.array => Expr.ident "nil" false
  | TypeExpr.mapT => Expr.ident "nil" false
  | TypeExpr.chanT => Expr.ident "nil" false
  | TypeExpr.interfaceT => Expr.ident "nil" false
  | TypeExpr.funcT => Expr.ident "nil" false
  | TypeExpr.selector p s => Expr.compositeLit (TypeExpr.selector p s)
  | TypeExpr.otherT => Expr.ident "nil" false

/-- Whether the last result field's type is syntactically `error`
(the replacement condition at line 255). -/
def lastFieldIsErrorIdent (rs : List Field) : Bool :=
  match rs.getLast? with
  | none => false
  | some f =>
      match f.type with
      | TypeExpr.ident n => n == "error"
      | _ => false

/-- `createErrorCheck` (lines 233-263): `if err != nil { return ... }`
with one `zeroValue` per declared result field, the last replaced by
`err` when that field's type is the identifier `error`. -/
def createErrorCheck (enclosingFunc : FuncDecl) : Stmt :=
  let results0 : List Expr :=
    match enclosingFunc.results with
    | none => []
    | some rs => rs.map (fun f => zeroValue f.type)
  let results :=
    if results0.length > 0 then
      if lastFieldIsErrorIdent ((enclosingFunc.results).getD []) then
        results0.set (results0.length - 1) (Expr.ident "err" false)
      else results0
    else results0
  Stmt.ifStmt (Expr.binaryNeq (Expr.ident "err" false) (Expr.ident "nil" false))
    [Stmt.ret results]

/-- `createErrorCheckForMain` (lines 290-315):
`if err != nil { log.Fatalf("error: %v", err) }`. -/
def createErrorCheckForMain : Stmt :=
  Stmt.ifStmt (Expr.binaryNeq (Expr.ident "err" false) (Expr.ident "nil" false))
    [Stmt.exprStmt (Expr.callE (Expr.selectorE "log" "Fatalf")
      [Expr.basicLit LitKind.string "\x22error: %v\x22", Expr.ident "err" false])]

/-- `innermostScope` (lines 371-384): `astutil.PathEnclosingInterval`
returns the enclosing nodes innermost-first; the source loop runs the
index from `len(path)-1` down to `0`, so it scans the path from the root
end and returns the scope of the outermost node having an entry in
`info.Scopes`.  Each list entry is that node's `info.Scopes` entry. -/
def innermostScope (pathInnermostFirst : List (Option GoScope)) : Option GoScope :=
  pathInnermostFirst.reverse.findSome? id

/-- `astutil.AddImport`: inserts the path into the import set unless it
is already present (the operation is a no-op on an existing import). -/
def addImport (path : String) (imports : List String) : List String :=
  if imports.contains path then imports else imports ++ [path]

/-- Pass-1 criterion for an error-discard mod (lines 76-82): the
operator is `:=` or `=`, `getErrorIndex` found an error slot, and the
left-hand target at that slot is the discard placeholder.  (The source
indexes `assign.Lhs[idx]` unchecked; for a type-checked unit the tuple
arity matches the target count, so the index is in range — out-of-range
is modelled as a non-candidate.) -/
def isDiscardCandidate (a : AssignStmt) : Bool :=
  (a.tok == Tok.define || a.tok == Tok.assign) &&
  (match getErrorIndex a with
   | some idx => isIgnored (a.lhs.getD idx Expr.otherExpr)
   | none => false)

/-- Pass-1 criterion for a demotion mod (lines 85-89): a `:=` statement
whose single left-hand target is an identifier literally named `err`. -/
def isDemotionCandidate (a : AssignStmt) : Bool :=
  (a.tok == Tok.define) &&
  (match a.lhs with
   | [Expr.ident n _] => n == "err"
   | _ => false)

/-- The applier state threaded through pass 2:
`errIntroduced` is `errIntroducedInFunc[enclosingFunc]` for the function
declaration currently walked (the map entry is fresh per declaration),
`modified` the unit's modified flag, `imports` the unit's import set. -/
structure PassState where
  errIntroduced : Bool
  modified : Bool
  imports : List String
deriving Repr

/-- The binding-operator decision for a discard candidate (lines
146-153): a rebind operator with `err` not yet bound is promoted to
`:=`; a `:=` with `err` already bound falls back to `=` unless some
other left-hand target is a genuinely new binding. -/
def decideTok (a : AssignStmt) (errIdx : Nat) (isErrAlreadyDeclared : Bool) : Tok :=
  if a.tok == Tok.assign && !isErrAlreadyDeclared then Tok.define
  else if a.tok == Tok.define && isErrAlreadyDeclared then
    (if !(anyOtherNewVariables a errIdx) then Tok.assign else a.tok)
  else a.tok

/-- The ledger update condition for a discard candidate (lines
154-156): the resolved operator is `:=` and `err` was not yet bound. -/
def marksIntroduced (tok : Tok) (isErrAlreadyDeclared : Bool) : Bool :=
  tok == Tok.define && !isErrAlreadyDeclared

/-- The pass-2 body for one matched statement (lines 121-167).  `scope`
is the result of `innermostScope`, which is the file scope
(`innermostScope_last_some`); `fn` is the enclosing top-level function
declaration found by `findEnclosingFunc`.  Returns the mutated
statement, the statements inserted after it, and the updated state. -/
def applyAssign (fileScope : GoScope) (fn : FuncDecl) (st : PassState)
    (a : AssignStmt) : AssignStmt × List Stmt × PassState :=
  if isDiscardCandidate a then
    -- lines 141-167: an ignored error
    let errIdx := (getErrorIndex a).getD 0
    let isErrAlreadyDeclared := st.errIntroduced || lookupScope fileScope "err"
    let tok := decideTok a errIdx isErrAlreadyDeclared
    let st1 : PassState :=
      { st with
        modified := true
        errIntroduced :=
          if marksIntroduced tok isErrAlreadyDeclared then true
          else st.errIntroduced }
    let a1 : AssignStmt :=
      { a with lhs := a.lhs.set errIdx (Expr.ident "err" false), tok := tok }
    if fn.name == "main" then
      (a1, [createErrorCheckForMain], { st1 with imports := addImport "log" st1.imports })
    else if canReturnError fn then
      (a1, [createErrorCheck fn], st1)
    else
      (a1, [], st1)
  else if isDemotionCandidate a then
    -- lines 131-140: an `err :=` that might need demotion
    let isDeclaredInTypes := lookupScope fileScope "err"
    let isDeclaredByUs := st.errIntroduced
    let demote := isDeclaredByUs || isDeclaredInTypes
    let a1 := if demote then { a with tok := Tok.assign } else a
    (a1, [], { st with modified := st.modified || demote, errIntroduced := true })
  else
    (a, [], st)

mutual
/-- Pass 2 over one statement: assign statements go through
`applyAssign` (the inserted check follows the statement and, being
placed with `Cursor.InsertAfter`, is not itself walked); block-bearing
statements are walked into. -/
def applyStmt (fileScope : GoScope) (fn : FuncDecl) (st : PassState) :
    Stmt → List Stmt × PassState
  | Stmt.assign a =>
      let r := applyAssign fileScope fn st a
      (Stmt.assign r.1 :: r.2.1, r.2.2)
  | Stmt.ifStmt c body =>
      let r := applyStmts fileScope fn st body
      ([Stmt.ifStmt c r.1], r.2)
  | Stmt.funcLit body =>
      let r := applyStmts fileScope fn st body
      ([Stmt.funcLit r.1], r.2)
  | Stmt.ret rs => ([Stmt.ret rs], st)
  | Stmt.exprStmt e => ([Stmt.exprStmt e], st)
  | Stmt.skip => ([Stmt.skip], st)

/-- Pass 2 over a statement list, in source order. -/
def applyStmts (fileScope : GoScope) (fn : FuncDecl) (st : PassState) :
    List Stmt → List Stmt × PassState
  | [] => ([], st)
  | s :: rest =>
      let r := applyStmt fileScope fn st s
      let r2 := applyStmts fileScope fn r.2 rest
      (r.1 ++ r2.1, r2.2)
end

/-- Pass 2 over the top-level declarations: each declaration gets a
fresh `errIntroducedInFunc` entry; the modified flag and the import set
are per-unit. -/
def processDecls (fileScope : GoScope) (modified : Bool) (imports : List String) :
    List FuncDecl → List FuncDecl × Bool × List String
  | [] => ([], modified, imports)
  | fn :: rest =>
      let r := applyStmts fileScope fn
        { errIntroduced := false, modified := modified, imports := imports } fn.body
      let r2 := processDecls fileScope r.2.modified r.2.imports rest
      ({ fn with body := r.1 } :: r2.1, r2.2)

/-- `processFile` (lines 59-184) on one compilation unit: the fused
scan-and-apply pass.  Returns the mutated unit and the modified flag
(serialization and the disk write are outside the model). -/
def processFile (fileScope : GoScope) (f : File) : File × Bool :=
  let r := processDecls fileScope false f.imports f.decls
  ({ decls := r.1, imports := r.2.2 }, r.2.1)

/-! ## Positional model of `findEnclosingFunc` (lines 222-231)

`findEnclosingFunc` does not walk the tree: it scans the file's top-level
declarations and returns the first `*ast.FuncDecl` whose source span
contains the position.  Function literals are expressions, never
top-level declarations, so a candidate inside a closure resolves to the
containing top-level declaration. -/

/-- A top-level `*ast.FuncDecl` reduced to what the positional lookup
reads: its name and source span (`fn.Pos()`, `fn.End()`). -/
structure FuncDeclSpan where
  name : String
  posStart : Nat
  posEnd : Nat
deriving Repr, DecidableEq

/-- A top-level declaration: a function declaration or any other
declaration kind (skipped by the type switch at line 224). -/
inductive TopDecl where
  | funcD (fn : FuncDeclSpan)
  | genD
deriving Repr, DecidableEq

/-- `findEnclosingFunc` (lines 222-231): the first top-level
`*ast.FuncDecl` whose span contains `pos` (`pos >= fn.Pos() && pos <
fn.End()`). -/
def findEnclosingFunc (decls : List TopDecl) (pos : Nat) : Option FuncDeclSpan :=
  match decls with
  | [] => none
  | TopDecl.funcD fn :: rest =>
      if fn.posStart ≤ pos && pos < fn.posEnd then some fn
      else findEnclosingFunc rest pos
  | TopDecl.genD :: rest => findEnclosingFunc rest pos

/-- Real files have pairwise disjoint top-level declaration spans. -/
def spanDisjoint (d : TopDecl) (e : TopDecl) : Bool :=
  match d, e with
  | TopDecl.funcD a, TopDecl.funcD b => a.posEnd ≤ b.posStart || b.posEnd ≤ a.posStart
  | _, _ => true

/-! ## Specification-side measures over the tree -/

/-- Number of declared result positions of a routine: each unnamed field
contributes one position, a named field one per name (the claim side of
C6; the engine itself never computes this). -/
def resultPositions (fn : FuncDecl) : Nat :=
  match fn.results with
  | none => 0
  | some rs =>
      (rs.map (fun f => if f.names.isEmpty then 1 else f.names.length)).sum

mutual
/-- Whether a statement contains a return statement (at any depth). -/
def containsRet : Stmt → Bool
  | Stmt.ret _ => true
  | Stmt.ifStmt _ body => containsRetList body
  | Stmt.funcLit body => containsRetList body
  | _ => false

def containsRetList : List Stmt → Bool
  | [] => false
  | s :: rest => containsRet s || containsRetList rest
end

mutual
/-- Number of statements (at any depth) that pass 1 records as mods:
error-discard candidates plus demotion candidates (lines 71-92). -/
def candCount : Stmt → Nat
  | Stmt.assign a =>
      if isDiscardCandidate a || isDemotionCandidate a then 1 else 0
  | Stmt.ifStmt _ body => candCountList body
  | Stmt.funcLit body => candCountList body
  | _ => 0

def candCountList : List Stmt → Nat
  | [] => 0
  | s :: rest => candCount s + candCountList rest
end

/-- Pass-1 mod count for a whole unit. -/
def candCountFile (f : File) : Nat :=
  (f.decls.map (fun fn => candCountList fn.body)).sum

mutual
/-- No error-discard candidate anywhere in the statement. -/
def noDiscard : Stmt → Bool
  | Stmt.assign a => !(isDiscardCandidate a)
  | Stmt.ifStmt _ body => noDiscardList body
  | Stmt.funcLit body => noDiscardList body
  | _ => true

def noDiscardList : List Stmt → Bool
  | [] => true
  | s :: rest => noDiscard s && noDiscardList rest
end

mutual
/-- Number of demotion candidates anywhere in the statement. -/
def demCount : Stmt → Nat
  | Stmt.assign a => if isDemotionCandidate a then 1 else 0
  | Stmt.ifStmt _ body => demCountList body
  | Stmt.funcLit body => demCountList body
  | _ => 0

def demCountList : List Stmt → Nat
  | [] => 0
  | s :: rest => demCount s + demCountList rest
end

mutual
/-- Whether some error-discard candidate occurs in the statement
(drives the `log` import: candidates in a declaration named `main`). -/
def anyDiscard : Stmt → Bool
  | Stmt.assign a => isDiscardCandidate a
  | Stmt.ifStmt _ body => anyDiscardList body
  | Stmt.funcLit body => anyDiscardList body
  | _ => false

def anyDiscardList : List Stmt → Bool
  | [] => false
  | s :: rest => anyDiscard s || anyDiscardList rest
end

/-- Some declaration named `main` contains an error-discard candidate. -/
def hasMainDiscard (f : File) : Bool :=
  f.decls.any (fun fn => fn.name == "main" && anyDiscardList fn.body)

/-- The name `err` occurs among the left-hand identifier targets. -/
def lhsHasErr (a : AssignStmt) : Bool :=
  a.lhs.any (fun e =>
    match e with
    | Expr.ident n _ => n == "err"
    | _ => false)

/-- Some left-hand identifier other than `err` is a genuinely new
binding of the original statement (per the pre-mutation `info.Defs`). -/
def hasOtherNewBinding (a : AssignStmt) : Bool :=
  a.lhs.any (fun e =>
    match e with
    | Expr.ident n isDef => n != "err" && isDef
    | _ => false)

/-- An output-side fresh introduction of `err`: a `:=` statement whose
left-hand side names `err` and introduces no other genuinely new
binding (claim side of C4). -/
def isFreshErrIntro (a : AssignStmt) : Bool :=
  (a.tok == Tok.define) && lhsHasErr a && !(hasOtherNewBinding a)

mutual
/-- Number of fresh `err` introductions anywhere in the statement. -/
def freshCount : Stmt → Nat
  | Stmt.assign a => if isFreshErrIntro a then 1 else 0
  | Stmt.ifStmt _ body => freshCountList body
  | Stmt.funcLit body => freshCountList body
  | _ => 0

def freshCountList : List Stmt → Nat
  | [] => 0
  | s :: rest => freshCount s + freshCountList rest
end

mutual
/-- No assignment statement anywhere in the statement has `err` among
its left-hand identifier targets. -/
def noErrLhs : Stmt → Bool
  | Stmt.assign a => !(lhsHasErr a)
  | Stmt.ifStmt _ body => noErrLhsList body
  | Stmt.funcLit body => noErrLhsList body
  | _ => true

def noErrLhsList : List Stmt → Bool
  | [] => true
  | s :: rest => noErrLhs s && noErrLhsList rest
end

/-- Budget of fresh `err` introductions still available to the pass in
the current routine: zero once the ledger has the name or the consulted
scope defines it, one before that. -/
def remainingIntro (fs : GoScope) (st : PassState) : Nat :=
  if st.errIntroduced || lookupScope fs "err" then 0 else 1

/-- The declared type of the routine's last result field, when any. -/
def lastDeclaredResultType (fn : FuncDecl) : Option TypeExpr :=
  fn.results.bind (fun rs => (rs.getLast?).map (fun f => f.type))

/-! ## Concrete programs used as witnesses and counterexamples -/

/-- The resolved `error` interface type itself. -/
def tError : GoResolvedType := ⟨"error", true⟩

/-- A resolved non-error type. -/
def tInt : GoResolvedType := ⟨"int", false⟩

/-- A resolved named type that implements the `error` interface without
being spelled `error`. -/
def tMyErr : GoResolvedType := ⟨"MyErr", true⟩

/-- `e, _ := f()` where `f` returns `(error, error)`: the first
error-like slot is kept, the second is discarded. -/
def aC1 : AssignStmt :=
  ⟨Tok.define, [Expr.ident "e" true, Expr.ident "_" false],
   [RhsExpr.call (GoCallType.tuple [tError, tError])]⟩

/-- `x, _ = f()` where `f` returns `(int, error)` and `x` is an existing
binding (a rebind-operator discard candidate). -/
def aC3 : AssignStmt :=
  ⟨Tok.assign, [Expr.ident "x" false, Expr.ident "_" false],
   [RhsExpr.call (GoCallType.tuple [tInt, tError])]⟩

/-- `x, _ := f()` where `f` returns `(int, error)` and `x` is a genuinely
new binding. -/
def aNew (x : String) : AssignStmt :=
  ⟨Tok.define, [Expr.ident x true, Expr.ident "_" false],
   [RhsExpr.call (GoCallType.tuple [tInt, tError])]⟩

/-- A non-entry routine returning `(int, error)`. -/
def fnIntError : FuncDecl :=
  ⟨"f", some [⟨[], TypeExpr.ident "int"⟩, ⟨[], TypeExpr.ident "error"⟩], []⟩

/-- A non-entry routine with grouped named results `(a, b int, e error)`:
two result fields, three result positions. -/
def fnGrouped : FuncDecl :=
  ⟨"f", some [⟨["a", "b"], TypeExpr.ident "int"⟩, ⟨["e"], TypeExpr.ident "error"⟩], []⟩

/-- A non-entry routine returning only `int` (no error in the result
list). -/
def fnIntOnly : FuncDecl :=
  ⟨"f", some [⟨[], TypeExpr.ident "int"⟩], [Stmt.assign (aNew "x")]⟩

/-- A non-entry routine returning `(int, MyErr)` where `MyErr` is
error-like but not spelled `error`. -/
def fnMyErr : FuncDecl :=
  ⟨"f", some [⟨[], TypeExpr.ident "int"⟩, ⟨[], TypeExpr.ident "MyErr"⟩], []⟩

/-- `x, _ := g()` where `g` returns `(int, MyErr)`. -/
def aC9 : AssignStmt :=
  ⟨Tok.define, [Expr.ident "x" true, Expr.ident "_" false],
   [RhsExpr.call (GoCallType.tuple [tInt, tMyErr])]⟩

/-- The resolved error-likeness of declared result types in the C9
counterexample program: both `MyErr` and `error` satisfy the error
capability contract there. -/
def errLikeC9 (t : TypeExpr) : Bool :=
  t == TypeExpr.ident "MyErr" || t == TypeExpr.ident "error"

/-- `err := g(...)` where `err` is a genuinely new binding of the
statement (a demotion candidate). -/
def aDemotion : AssignStmt :=
  ⟨Tok.define, [Expr.ident "err" true], [RhsExpr.nonCall]⟩

/-- `func f(err error) { err := g(...); ... }`: the demotion candidate's
enclosing scopes (innermost first): the body block scope and the
function scope both define `err` (the parameter), the file scope does
not. -/
def pathC5 : List (Option GoScope) :=
  [some ⟨["err"]⟩, some ⟨["err"]⟩, some ⟨[]⟩]

/-- The routine of the C5 failing input. -/
def fnC5 : FuncDecl := ⟨"f", none, [Stmt.assign aDemotion]⟩

/-- A unit whose only routine keeps an untouched `err := g(...)`
statement: the pass changes nothing, yet a second scan still collects
the demotion candidate. -/
def fileC2 : File := ⟨[⟨"f", none, [Stmt.assign aDemotion]⟩], []⟩

/-- A unit with two consecutive discard candidates in one routine, each
alongside a genuinely new binding. -/
def fileC4 : File :=
  ⟨[⟨"f", none, [Stmt.assign (aNew "x"), Stmt.assign (aNew "y")]⟩], []⟩

/-- An entry routine with two discard candidates. -/
def fileC8 : File :=
  ⟨[⟨"main", none, [Stmt.assign (aNew "x"), Stmt.assign (aNew "y")]⟩], []⟩

/-- Top-level declarations for the C10 witness: `main`, a non-function
declaration, and a second routine whose body (including a closure inside
it) spans positions 12-30. -/
def declsC10 : List TopDecl :=
  [TopDecl.funcD ⟨"main", 0, 10⟩, TopDecl.genD, TopDecl.funcD ⟨"helper", 12, 30⟩]

/-- Placeholder resolved type used as a `getD` default. -/
def tNone : GoResolvedType := ⟨"", false⟩

/-! ## General lemmas about the embedded functions -/

/-- The `*ast.File` is the outermost node of every enclosing path and
always has an entry in `info.Scopes`, so the loop of `innermostScope`
(which scans the innermost-first path from the root end) returns the
file scope no matter which block scopes enclose the statement. -/
theorem innermostScope_last_some (path : List (Option GoScope)) (s : GoScope) :
    innermostScope (path ++ [some s]) = some s := by
  simp [innermostScope]

/-- `firstErrorIndex` returns exactly the lowest error-like index. -/
theorem firstErrorIndex_spec (l : List GoResolvedType) (j : Nat) :
    firstErrorIndex l = some j ↔
      (j < l.length ∧ isErrorType (some (l.getD j tNone)) = true ∧
       ∀ k, k < j → isErrorType (some (l.getD k tNone)) = false) := by
  induction l generalizing j with
  | nil => simp [firstErrorIndex]
  | cons t rest ih =>
      rw [firstErrorIndex]
      cases ht : isErrorType (some t) with
      | true =>
          rw [if_pos rfl]
          constructor
          · intro h
            obtain rfl : (0 : Nat) = j := Option.some.inj h
            exact ⟨by simp, by simpa using ht, by omega⟩
          · rintro ⟨hj, herr, hbefore⟩
            cases j with
            | zero => rfl
            | succ j =>
                have h0 := hbefore 0 (by omega)
                simp only [List.getD_cons_zero] at h0
                rw [ht] at h0
                cases h0
      | false =>
          rw [if_neg (by simp)]
          rw [Option.map_eq_some']
          constructor
          · rintro ⟨j', hj', rfl⟩
            have hspec := (ih j').mp hj'
            refine ⟨by simp [Nat.succ_lt_succ_iff, hspec.1], by simpa using hspec.2.1, ?_⟩
            intro k hk
            cases k with
            | zero => simpa using ht
            | succ k => simpa using hspec.2.2 k (by omega)
          · rintro ⟨hj, herr, hbefore⟩
            cases j with
            | zero =>
                simp only [List.getD_cons_zero] at herr
                rw [herr] at ht
                cases ht
            | succ j =>
                refine ⟨j, (ih j).mpr ⟨by simpa [Nat.succ_lt_succ_iff] using hj,
                  by simpa using herr, ?_⟩, rfl⟩
                intro k hk
                simpa using hbefore (k + 1) (by omega)

/-- `findEnclosingFunc` only ever returns a member of the top-level
declaration list whose span contains the position. -/
theorem findEnclosingFunc_mem :
    ∀ (decls : List TopDecl) (p : Nat) (fn : FuncDeclSpan),
      findEnclosingFunc decls p = some fn →
      TopDecl.funcD fn ∈ decls ∧ fn.posStart ≤ p ∧ p < fn.posEnd := by
  intro decls
  induction decls with
  | nil => intro p fn h; simp [findEnclosingFunc] at h
  | cons d rest ih =>
      intro p fn h
      cases d with
      | funcD g =>
          simp only [findEnclosingFunc] at h
          split at h
          · rename_i hc
            cases h
            simp only [Bool.and_eq_true, decide_eq_true_eq] at hc
            exact ⟨List.mem_cons_self _ _, hc.1, hc.2⟩
          · have := ih p fn h
            exact ⟨List.mem_cons_of_mem _ this.1, this.2⟩
      | genD =>
          simp only [findEnclosingFunc] at h
          have := ih p fn h
          exact ⟨List.mem_cons_of_mem _ this.1, this.2⟩

/-- With pairwise disjoint top-level spans (true of every real file),
`findEnclosingFunc` resolves every position inside a declaration's span
— including positions inside function literals nested in its body — to
that declaration. -/
theorem findEnclosingFunc_of_mem :
    ∀ (decls : List TopDecl) (p : Nat) (fn : FuncDeclSpan),
      List.Pairwise (fun d e => spanDisjoint d e = true) decls →
      TopDecl.funcD fn ∈ decls → fn.posStart ≤ p → p < fn.posEnd →
      findEnclosingFunc decls p = some fn := by
  intro decls
  induction decls with
  | nil => intro p fn _ hmem; cases hmem
  | cons d rest ih =>
      intro p fn hpw hmem h1 h2
      rcases List.mem_cons.mp hmem with heq | hmem'
      · subst heq
        simp only [findEnclosingFunc]
        rw [if_pos]
        simp only [Bool.and_eq_true, decide_eq_true_eq]
        exact ⟨h1, h2⟩
      · have hpw' := List.pairwise_cons.mp hpw
        cases d with
        | funcD g =>
            have hdisj := hpw'.1 _ hmem'
            simp only [spanDisjoint, Bool.or_eq_true, decide_eq_true_eq] at hdisj
            simp only [findEnclosingFunc]
            rw [if_neg]
            · exact ih p fn hpw'.2 hmem' h1 h2
            · simp only [Bool.and_eq_true, decide_eq_true_eq, not_and]
              intro hg1 hg2
              rcases hdisj with hd | hd <;> omega
        | genD =>
            simp only [findEnclosingFunc]
            exact ih p fn hpw'.2 hmem' h1 h2

/-! ## Claim C10 -/

/-- C10: for every candidate located inside a function literal, the
enclosing routine consulted for every decision is the top-level function
declaration whose source span contains the candidate, never the function
literal itself: `findEnclosingFunc` scans only the file's top-level
declarations, so it can only return a member of that list (a
`*ast.FuncDecl`), and with the pairwise disjoint spans of a real file it
returns exactly the declaration whose span contains the candidate's
position — which, for a candidate nested in a closure, is the containing
top-level declaration. -/
theorem c10_enclosing_is_top_level_decl :
    (∀ (decls : List TopDecl) (p : Nat) (fn : FuncDeclSpan),
      findEnclosingFunc decls p = some fn →
      TopDecl.funcD fn ∈ decls ∧ fn.posStart ≤ p ∧ p < fn.posEnd) ∧
    (∀ (decls : List TopDecl) (p : Nat) (fn : FuncDeclSpan),
      List.Pairwise (fun d e => spanDisjoint d e = true) decls →
      TopDecl.funcD fn ∈ decls → fn.posStart ≤ p → p < fn.posEnd →
      findEnclosingFunc decls p = some fn) :=
  ⟨findEnclosingFunc_mem, findEnclosingFunc_of_mem⟩

/-- Witness for C10: position 20 (inside `helper`'s body, e.g. inside a
closure in it) resolves to the `helper` top-level declaration. -/
theorem c10_enclosing_is_top_level_decl_w :
    (List.Pairwise (fun d e => spanDisjoint d e = true) declsC10 ∧
     TopDecl.funcD ⟨"helper", 12, 30⟩ ∈ declsC10 ∧ 12 ≤ 20 ∧ 20 < 30) ∧
    findEnclosingFunc declsC10 20 = some ⟨"helper", 12, 30⟩ :=
  ⟨⟨by decide, by decide, by decide, by decide⟩,
   c10_enclosing_is_top_level_decl.2 declsC10 20 ⟨"helper", 12, 30⟩
     (by decide) (by decide) (by decide) (by decide)⟩

/-! ## Component lemmas about `applyAssign` -/

/-- A statement that pass 1 did not record is passed through
untouched. -/
theorem applyAssign_not_candidate (fs : GoScope) (fn : FuncDecl) (st : PassState)
    (a : AssignStmt) (h1 : isDiscardCandidate a = false)
    (h2 : isDemotionCandidate a = false) :
    applyAssign fs fn st a = (a, [], st) := by
  simp [applyAssign, h1, h2]

/-- The demotion-candidate branch of the applier. -/
theorem applyAssign_demotion (fs : GoScope) (fn : FuncDecl) (st : PassState)
    (a : AssignStmt) (h1 : isDiscardCandidate a = false)
    (h2 : isDemotionCandidate a = true) :
    applyAssign fs fn st a =
      (if st.errIntroduced || lookupScope fs "err" then { a with tok := Tok.assign } else a,
       [],
       { st with
         modified := st.modified || (st.errIntroduced || lookupScope fs "err"),
         errIntroduced := true }) := by
  simp [applyAssign, h1, h2]

/-- The statement produced for a discard candidate: the discard slot is
renamed to `err` and the operator is the one `decideTok` resolves. -/
theorem applyAssign_discard_assign (fs : GoScope) (fn : FuncDecl) (st : PassState)
    (a : AssignStmt) (h : isDiscardCandidate a = true) :
    (applyAssign fs fn st a).1 =
      { a with
        tok := decideTok a ((getErrorIndex a).getD 0)
          (st.errIntroduced || lookupScope fs "err")
        lhs := a.lhs.set ((getErrorIndex a).getD 0) (Expr.ident "err" false) } := by
  simp only [applyAssign, h, if_true]
  split
  · rfl
  · split <;> rfl

/-- The statements inserted after a discard candidate. -/
theorem applyAssign_discard_inserted (fs : GoScope) (fn : FuncDecl) (st : PassState)
    (a : AssignStmt) (h : isDiscardCandidate a = true) :
    (applyAssign fs fn st a).2.1 =
      (if fn.name == "main" then [createErrorCheckForMain]
       else if canReturnError fn then [createErrorCheck fn]
       else []) := by
  simp only [applyAssign, h, if_true]
  split
  · rfl
  · split <;> rfl

/-- The state after a discard candidate: the unit is modified, the
ledger is marked when the decision freshly introduced `err`, and the
`log` import is ensured exactly for candidates in `main`. -/
theorem applyAssign_discard_state (fs : GoScope) (fn : FuncDecl) (st : PassState)
    (a : AssignStmt) (h : isDiscardCandidate a = true) :
    (applyAssign fs fn st a).2.2 =
      { st with
        modified := true
        errIntroduced :=
          if marksIntroduced
              (decideTok a ((getErrorIndex a).getD 0)
                (st.errIntroduced || lookupScope fs "err"))
              (st.errIntroduced || lookupScope fs "err") then true
          else st.errIntroduced
        imports := if fn.name == "main" then addImport "log" st.imports else st.imports } := by
  simp only [applyAssign, h, if_true]
  split
  · rename_i hm
    simp [hm]
  · rename_i hm
    simp only [Bool.not_eq_true] at hm
    split <;> simp [hm]

/-! ## Claim C6 -/

/-- C6: the claim states that every inserted propagating return
supplies exactly as many arguments as the routine has declared result
positions.  `createErrorCheck` instead emits one argument per declared
result *field*: for the eligible routine `func f() (a, b int, e error)`
(three result positions, two result fields) the inserted return is
`return 0, err` — two arguments for three positions, so the synthesized
code does not compile, contradicting the documented behaviour of
returning a zero value for every return type. -/
theorem c6_return_args_per_field_not_per_position :
    canReturnError fnGrouped = true ∧
    resultPositions fnGrouped = 3 ∧
    createErrorCheck fnGrouped =
      Stmt.ifStmt (Expr.binaryNeq (Expr.ident "err" false) (Expr.ident "nil" false))
        [Stmt.ret [Expr.basicLit LitKind.int "0", Expr.ident "err" false]] :=
  ⟨rfl, rfl, rfl⟩

/-! ## Claim C5 -/

/-- C5: the claim (and the engine's own doc comment on
`innermostScope`) requires the demotion decision to consult the
innermost scope and its ancestors.  The loop in `innermostScope` scans
the innermost-first path from the root end, so it returns the file
scope; for `func f(err error) { err := g(...) }` the parameter binding
of `err` (visible in the body and function scopes of the path) is
invisible to the decision, and the statement is left as a
binding-introduction instead of being demoted to a rebind. -/
theorem c5_demotion_ignores_enclosing_scopes :
    (∀ (path : List (Option GoScope)) (s : GoScope),
      innermostScope (path ++ [some s]) = some s) ∧
    innermostScope pathC5 = some ⟨[]⟩ ∧
    lookupScope ⟨["err"]⟩ "err" = true ∧
    lookupScope ⟨[]⟩ "err" = false ∧
    isDemotionCandidate aDemotion = true ∧
    (applyAssign ⟨[]⟩ fnC5 ⟨false, false, []⟩ aDemotion).1.tok = Tok.define ∧
    (applyAssign ⟨[]⟩ fnC5 ⟨false, false, []⟩ aDemotion).2.2.modified = false :=
  ⟨innermostScope_last_some, rfl, rfl, rfl, rfl, rfl, rfl⟩

/-! ## Claim C1 -/

/-- C1 (amended): for an assignment whose right-hand side is one call
with a result tuple of the same arity as the target list, the scanner
records an error-discard candidate iff the *lowest* error-like index of
the result tuple has the discard placeholder as its left-hand target
(not: iff *some* discarded index is error-like), and the slot rewritten
by the applier is that lowest error-like index. -/
theorem c1_discard_candidate_lowest_error_index :
    ∀ (a : AssignStmt) (ts : List GoResolvedType),
      a.rhs = [RhsExpr.call (GoCallType.tuple ts)] →
      ts.length = a.lhs.length →
      (a.tok = Tok.define ∨ a.tok = Tok.assign) →
      ((isDiscardCandidate a = true ↔
        ∃ j, j < ts.length ∧
          isErrorType (some (ts.getD j tNone)) = true ∧
          (∀ k, k < j → isErrorType (some (ts.getD k tNone)) = false) ∧
          isIgnored (a.lhs.getD j Expr.otherExpr) = true) ∧
       (∀ j, getErrorIndex a = some j →
          (j < ts.length ∧ isErrorType (some (ts.getD j tNone)) = true ∧
           ∀ k, k < j → isErrorType (some (ts.getD k tNone)) = false) ∧
          ∀ (fs : GoScope) (fn : FuncDecl) (st : PassState),
            isDiscardCandidate a = true →
            (applyAssign fs fn st a).1.lhs =
              a.lhs.set j (Expr.ident "err" false))) := by
  intro a ts hrhs _harity htok
  have hget : getErrorIndex a = firstErrorIndex ts := by
    simp [getErrorIndex, hrhs]
  have htokb : (a.tok == Tok.define || a.tok == Tok.assign) = true := by
    rcases htok with h | h <;> simp [h]
  constructor
  · constructor
    · intro hc
      simp only [isDiscardCandidate, htokb, Bool.true_and] at hc
      rw [hget] at hc
      cases hfe : firstErrorIndex ts with
      | none => rw [hfe] at hc; cases hc
      | some j =>
          rw [hfe] at hc
          have hspec := (firstErrorIndex_spec ts j).mp hfe
          exact ⟨j, hspec.1, hspec.2.1, hspec.2.2, hc⟩
    · rintro ⟨j, hj, herr, hbefore, hign⟩
      have hfe : firstErrorIndex ts = some j :=
        (firstErrorIndex_spec ts j).mpr ⟨hj, herr, hbefore⟩
      simp only [isDiscardCandidate, htokb, Bool.true_and]
      rw [hget, hfe]
      exact hign
  · intro j hj
    have hfe : firstErrorIndex ts = some j := by rw [← hget]; exact hj
    refine ⟨(firstErrorIndex_spec ts j).mp hfe, ?_⟩
    intro fs fn st hc
    rw [applyAssign_discard_assign fs fn st a hc, hj]
    rfl

/-- Witness for C1 (amended): `x, _ = f()` with `f` returning
`(int, error)` is a candidate, via the lowest error-like index 1. -/
theorem c1_discard_candidate_lowest_error_index_w :
    (aC3.rhs = [RhsExpr.call (GoCallType.tuple [tInt, tError])] ∧
     [tInt, tError].length = aC3.lhs.length ∧
     (aC3.tok = Tok.define ∨ aC3.tok = Tok.assign)) ∧
    isDiscardCandidate aC3 = true :=
  ⟨⟨rfl, rfl, Or.inr rfl⟩,
   (c1_discard_candidate_lowest_error_index aC3 [tInt, tError] rfl rfl
      (Or.inr rfl)).1.mpr
     ⟨1, by decide, by decide, by decide, by decide⟩⟩

/-- C1 (counterexample to the claim as stated): `e, _ := f()` with `f`
returning `(error, error)`: the discarded target at index 1 has an
error-like resolved type and the arities agree, yet no candidate is
recorded, because the lowest error-like index is 0 and its target is
not the placeholder. -/
theorem c1_claim_fails_on_unignored_first_error_slot :
    aC1.rhs = [RhsExpr.call (GoCallType.tuple [tError, tError])] ∧
    [tError, tError].length = aC1.lhs.length ∧
    aC1.tok = Tok.define ∧
    isIgnored (aC1.lhs.getD 1 Expr.otherExpr) = true ∧
    isErrorType (some ([tError, tError].getD 1 tNone)) = true ∧
    isDiscardCandidate aC1 = false :=
  ⟨rfl, rfl, rfl, rfl, rfl, rfl⟩

/-! ## Claim C3 -/

/-- C3: the applier's binding-operator decision for an error-discard
candidate.  A rebind-operator statement with `err` not yet bound (per
the ledger and the consulted scope) is promoted to `:=` and the ledger
marks the name introduced; a `:=` statement with `err` already bound is
demoted to `=` unless some other left-hand target is a genuinely new
binding per the original pre-mutation `info.Defs` records
(`anyOtherNewVariables`), in which case `:=` is kept. -/
theorem c3_binding_operator_decision :
    ∀ (fs : GoScope) (fn : FuncDecl) (st : PassState) (a : AssignStmt),
      isDiscardCandidate a = true →
      ((a.tok = Tok.assign → (st.errIntroduced || lookupScope fs "err") = false →
          (applyAssign fs fn st a).1.tok = Tok.define ∧
          (applyAssign fs fn st a).2.2.errIntroduced = true) ∧
       (a.tok = Tok.define → (st.errIntroduced || lookupScope fs "err") = true →
          (applyAssign fs fn st a).1.tok =
            (if anyOtherNewVariables a ((getErrorIndex a).getD 0) then Tok.define
             else Tok.assign))) := by
  intro fs fn st a hc
  constructor
  · intro htok hdecl
    rw [applyAssign_discard_assign fs fn st a hc, applyAssign_discard_state fs fn st a hc]
    simp [decideTok, marksIntroduced, htok, hdecl]
  · intro htok hdecl
    rw [applyAssign_discard_assign fs fn st a hc]
    simp only [decideTok, htok, hdecl]
    cases hother : anyOtherNewVariables a ((getErrorIndex a).getD 0) <;> simp

/-- Witness for C3: the promotion half at `x, _ = f()` (rebind
operator, `err` unbound) — the operator becomes `:=` and the ledger is
marked. -/
theorem c3_binding_operator_decision_w :
    (isDiscardCandidate aC3 = true ∧ aC3.tok = Tok.assign ∧
     ((⟨false, false, []⟩ : PassState).errIntroduced || lookupScope ⟨[]⟩ "err") = false) ∧
    (applyAssign ⟨[]⟩ fnIntError ⟨false, false, []⟩ aC3).1.tok = Tok.define ∧
    (applyAssign ⟨[]⟩ fnIntError ⟨false, false, []⟩ aC3).2.2.errIntroduced = true :=
  ⟨⟨rfl, rfl, rfl⟩,
   (c3_binding_operator_decision ⟨[]⟩ fnIntError ⟨false, false, []⟩ aC3 rfl).1 rfl rfl⟩

/-! ## Claim C7 -/

/-- C7 (counterexample to the claim as stated): a discard candidate
inside a non-entry routine returning only `int`: the claim says the
placeholder is *not* rewritten, but the engine rewrites `x, _ := f()`
to `x, err := f()` (and inserts no check). -/
theorem c7_claim_fails_placeholder_is_rewritten :
    canReturnError fnIntOnly = false ∧
    (fnIntOnly.name == "main") = false ∧
    isDiscardCandidate (aNew "x") = true ∧
    (applyStmt ⟨[]⟩ fnIntOnly ⟨false, false, []⟩ (Stmt.assign (aNew "x"))).1 =
      [Stmt.assign ⟨Tok.define, [Expr.ident "x" true, Expr.ident "err" false],
        [RhsExpr.call (GoCallType.tuple [tInt, tError])]⟩] :=
  ⟨rfl, rfl, rfl, rfl⟩

/-- C7 (amended): for a discard candidate in a routine that is not the
entry routine and whose result list cannot propagate an error, the
engine *does* rewrite the discard placeholder to the error-variable
name (with the usual operator decision) but inserts no check statement
after it. -/
theorem c7_placeholder_rewritten_without_check :
    ∀ (fs : GoScope) (fn : FuncDecl) (st : PassState) (a : AssignStmt),
      isDiscardCandidate a = true →
      (fn.name == "main") = false →
      canReturnError fn = false →
      (applyStmt fs fn st (Stmt.assign a)).1 = [Stmt.assign (applyAssign fs fn st a).1] ∧
      (applyAssign fs fn st a).1.lhs =
        a.lhs.set ((getErrorIndex a).getD 0) (Expr.ident "err" false) ∧
      (applyAssign fs fn st a).2.2.modified = true := by
  intro fs fn st a hc hmain hret
  have hins := applyAssign_discard_inserted fs fn st a hc
  rw [hmain, hret] at hins
  simp only [Bool.false_eq_true, if_false] at hins
  refine ⟨?_, ?_, ?_⟩
  · simp [applyStmt, hins]
  · rw [applyAssign_discard_assign fs fn st a hc]
  · rw [applyAssign_discard_state fs fn st a hc]

/-- Witness for C7 (amended). -/
theorem c7_placeholder_rewritten_without_check_w :
    (isDiscardCandidate (aNew "x") = true ∧ (fnIntOnly.name == "main") = false ∧
     canReturnError fnIntOnly = false) ∧
    (applyStmt ⟨[]⟩ fnIntOnly ⟨false, false, []⟩ (Stmt.assign (aNew "x"))).1 =
      [Stmt.assign (applyAssign ⟨[]⟩ fnIntOnly ⟨false, false, []⟩ (aNew "x")).1] :=
  ⟨⟨rfl, rfl, rfl⟩,
   (c7_placeholder_rewritten_without_check ⟨[]⟩ fnIntOnly ⟨false, false, []⟩ (aNew "x")
      rfl rfl rfl).1⟩

/-! ## Claim C9 -/

/-- C9 (counterexample to the claim as stated): a discard candidate in
a routine whose declared result list ends in `MyErr`, a named type that
satisfies the error capability contract (its resolved type is
error-like, as witnessed by the call tuple annotation and the
`errLikeC9` resolution): the claim requires a propagating return check
to be inserted, but the engine inserts nothing because `canReturnError`
compares the last declared result type syntactically with the
identifier `error`. -/
theorem c9_no_insertion_for_error_like_named_type :
    isDiscardCandidate aC9 = true ∧
    (fnMyErr.name == "main") = false ∧
    lastDeclaredResultType fnMyErr = some (TypeExpr.ident "MyErr") ∧
    errLikeC9 (TypeExpr.ident "MyErr") = true ∧
    tMyErr.implementsError = true ∧
    (applyStmt ⟨[]⟩ fnMyErr ⟨false, false, []⟩ (Stmt.assign aC9)).1 =
      [Stmt.assign ⟨Tok.define, [Expr.ident "x" true, Expr.ident "err" false],
        [RhsExpr.call (GoCallType.tuple [tInt, tMyErr])]⟩] :=
  ⟨rfl, rfl, rfl, rfl, rfl, rfl⟩

/-- C9 (amended): after rewriting a discard candidate in a non-entry
routine, the propagating return check is inserted immediately after the
rewritten statement iff the routine's declared result list ends in the
*syntactic identifier* `error` (the `canReturnError` check), not iff
that last type merely satisfies the error capability contract. -/
theorem c9_insertion_iff_syntactic_error_ident :
    ∀ (fs : GoScope) (fn : FuncDecl) (st : PassState) (a : AssignStmt),
      isDiscardCandidate a = true →
      (fn.name == "main") = false →
      ((applyStmt fs fn st (Stmt.assign a)).1 =
        (if canReturnError fn then
          [Stmt.assign (applyAssign fs fn st a).1, createErrorCheck fn]
         else [Stmt.assign (applyAssign fs fn st a).1])) ∧
      (canReturnError fn = true ↔
        ∃ (rs : List Field) (lastF : Field),
          fn.results = some rs ∧ rs.getLast? = some lastF ∧
          lastF.type = TypeExpr.ident "error") := by
  intro fs fn st a hc hmain
  constructor
  · have hins := applyAssign_discard_inserted fs fn st a hc
    rw [hmain] at hins
    simp only [Bool.false_eq_true, if_false] at hins
    cases hret : canReturnError fn with
    | true =>
        rw [hret] at hins
        simp only [if_true] at hins
        simp [applyStmt, hins]
    | false =>
        rw [hret] at hins
        simp only [Bool.false_eq_true, if_false] at hins
        simp [applyStmt, hins]
  · constructor
    · intro hret
      cases hres : fn.results with
      | none => simp only [canReturnError, hres, Bool.false_eq_true] at hret
      | some rs =>
          cases hlast : rs.getLast? with
          | none => simp only [canReturnError, hres, hlast, Bool.false_eq_true] at hret
          | some lastF =>
              cases htype : lastF.type <;>
                simp only [canReturnError, hres, hlast, htype, Bool.false_eq_true] at hret
              rename_i n
              have hn : n = "error" := by simpa using hret
              exact ⟨rs, lastF, rfl, hlast, by rw [htype, hn]⟩
    · rintro ⟨rs, lastF, hres, hlast, htype⟩
      simp [canReturnError, hres, hlast, htype]

/-- Witness for C9 (amended): in `func f() (int, error)` the check is
inserted right after the rewritten statement. -/
theorem c9_insertion_iff_syntactic_error_ident_w :
    (isDiscardCandidate aC3 = true ∧ (fnIntError.name == "main") = false) ∧
    (applyStmt ⟨[]⟩ fnIntError ⟨false, false, []⟩ (Stmt.assign aC3)).1 =
      [Stmt.assign (applyAssign ⟨[]⟩ fnIntError ⟨false, false, []⟩ aC3).1,
       createErrorCheck fnIntError] := by
  refine ⟨⟨rfl, rfl⟩, ?_⟩
  have h := (c9_insertion_iff_syntactic_error_ident ⟨[]⟩ fnIntError ⟨false, false, []⟩ aC3
    rfl rfl).1
  simpa using h

/-! ## List helpers -/

theorem getD_set_self {α : Type} (l : List α) (i : Nat) (v d : α) (h : i < l.length) :
    (l.set i v).getD i d = v := by
  induction l generalizing i with
  | nil => simp at h
  | cons x rest ih =>
      cases i with
      | zero => rfl
      | succ i => simpa using ih i (by simpa using h)

theorem getD_set_of_ne {α : Type} (l : List α) (i j : Nat) (v d : α) (h : ¬ i = j) :
    (l.set i v).getD j d = l.getD j d := by
  induction l generalizing i j with
  | nil => simp
  | cons x rest ih =>
      cases i with
      | zero =>
          cases j with
          | zero => exact absurd rfl h
          | succ j => rfl
      | succ i =>
          cases j with
          | zero => rfl
          | succ j => simpa using ih i j (fun hh => h (by omega))

theorem getD_mem_of_lt {α : Type} (l : List α) (i : Nat) (d : α) (h : i < l.length) :
    l.getD i d ∈ l := by
  induction l generalizing i with
  | nil => simp at h
  | cons x rest ih =>
      cases i with
      | zero => simp
      | succ i =>
          have := ih i (by simpa using h)
          simpa using Or.inr this

theorem lt_of_isIgnored_getD (l : List Expr) (i : Nat)
    (h : isIgnored (l.getD i Expr.otherExpr) = true) : i < l.length := by
  by_contra hge
  rw [List.getD_eq_default _ _ (by omega)] at h
  cases h

/-! ## Candidate characterizations and: the applier never leaves an
error-discard candidate behind -/

/-- A demotion candidate is a `:=` statement whose left-hand side is
the single identifier `err`. -/
theorem isDemotionCandidate_iff (a : AssignStmt) :
    isDemotionCandidate a = true ↔
      a.tok = Tok.define ∧ ∃ d, a.lhs = [Expr.ident "err" d] := by
  unfold isDemotionCandidate
  constructor
  · intro h
    simp only [Bool.and_eq_true] at h
    obtain ⟨h1, h2⟩ := h
    refine ⟨by simpa using h1, ?_⟩
    split at h2
    · rename_i n d heq
      have hn : n = "err" := by simpa using h2
      exact ⟨d, hn ▸ heq⟩
    · cases h2
  · rintro ⟨h1, d, h2⟩
    simp [h1, h2]

/-- Statements whose single left-hand target is an identifier other
than the placeholder are never discard candidates. -/
theorem not_discard_of_lhs_single (a : AssignStmt) (n : String) (d : Bool)
    (hl : a.lhs = [Expr.ident n d]) (hn : (n == "_") = false) :
    isDiscardCandidate a = false := by
  unfold isDiscardCandidate
  cases hge : getErrorIndex a with
  | none => simp
  | some j =>
      cases j with
      | zero => simp [hl, isIgnored, hn]
      | succ j =>
          rw [hl]
          simp only [List.getD_cons_succ]
          have : ([] : List Expr).getD j Expr.otherExpr = Expr.otherExpr := by
            rw [List.getD_eq_default]
            simp
          simp [this, isIgnored]

/-- After `applyAssign`, the produced statement is never again an
error-discard candidate: a rewritten candidate has `err` (not `_`) at
the selected slot, a demotion candidate has the single target `err`,
and any other statement was no candidate to begin with. -/
theorem applyAssign_output_not_discard (fs : GoScope) (fn : FuncDecl) (st : PassState)
    (a : AssignStmt) : isDiscardCandidate (applyAssign fs fn st a).1 = false := by
  cases hc : isDiscardCandidate a with
  | true =>
      have hcand := hc
      unfold isDiscardCandidate at hcand
      cases hge : getErrorIndex a with
      | none => rw [hge] at hcand; simp at hcand
      | some j =>
          rw [hge] at hcand
          simp only [Bool.and_eq_true] at hcand
          have hlt : j < a.lhs.length := lt_of_isIgnored_getD a.lhs j hcand.2
          rw [applyAssign_discard_assign fs fn st a hc, hge]
          simp only [Option.getD_some]
          unfold isDiscardCandidate
          have hrw : ∀ (t : Tok) (l : List Expr),
              getErrorIndex ⟨t, l, a.rhs⟩ = getErrorIndex a := fun t l => rfl
          rw [hrw, hge]
          dsimp only
          rw [getD_set_self a.lhs j (Expr.ident "err" false) Expr.otherExpr hlt]
          simp [isIgnored]
  | false =>
      cases hd : isDemotionCandidate a with
      | true =>
          rw [applyAssign_demotion fs fn st a hc hd]
          obtain ⟨htok, d, hlhs⟩ := (isDemotionCandidate_iff a).mp hd
          split
          · exact not_discard_of_lhs_single _ "err" d (by simpa using hlhs) rfl
          · exact not_discard_of_lhs_single _ "err" d hlhs rfl
      | false =>
          rw [applyAssign_not_candidate fs fn st a hc hd]
          exact hc

/-! ## Additivity of the measures over statement-list concatenation -/

theorem noDiscardList_append (x y : List Stmt) :
    noDiscardList (x ++ y) = (noDiscardList x && noDiscardList y) := by
  induction x with
  | nil => simp [noDiscardList]
  | cons s rest ih => simp [noDiscardList, ih, Bool.and_assoc]

theorem demCountList_append (x y : List Stmt) :
    demCountList (x ++ y) = demCountList x + demCountList y := by
  induction x with
  | nil => simp [demCountList]
  | cons s rest ih => simp [demCountList, ih]; omega

theorem freshCountList_append (x y : List Stmt) :
    freshCountList (x ++ y) = freshCountList x + freshCountList y := by
  induction x with
  | nil => simp [freshCountList]
  | cons s rest ih => simp [freshCountList, ih]; omega

/-- The statements inserted after any statement satisfy all the
output-side invariants: they contain no assignment at all, hence no
candidate of either kind and no `err` introduction. -/
theorem applyAssign_inserted_invariants (fs : GoScope) (fn : FuncDecl) (st : PassState)
    (a : AssignStmt) :
    noDiscardList (applyAssign fs fn st a).2.1 = true ∧
    demCountList (applyAssign fs fn st a).2.1 = 0 ∧
    freshCountList (applyAssign fs fn st a).2.1 = 0 := by
  cases hc : isDiscardCandidate a with
  | true =>
      rw [applyAssign_discard_inserted fs fn st a hc]
      split
      · exact ⟨rfl, rfl, rfl⟩
      · split
        · exact ⟨rfl, rfl, rfl⟩
        · exact ⟨rfl, rfl, rfl⟩
  | false =>
      cases hd : isDemotionCandidate a with
      | true => rw [applyAssign_demotion fs fn st a hc hd]; exact ⟨rfl, rfl, rfl⟩
      | false => rw [applyAssign_not_candidate fs fn st a hc hd]; exact ⟨rfl, rfl, rfl⟩

/-! ## After pass 2 no error-discard candidate remains (run-2 scan
finds no discard mods) -/

mutual
theorem applyStmt_noDiscard (fs : GoScope) (fn : FuncDecl) (st : PassState) (s : Stmt) :
    noDiscardList (applyStmt fs fn st s).1 = true := by
  match s with
  | Stmt.assign a =>
      have h1 := applyAssign_output_not_discard fs fn st a
      have h2 := (applyAssign_inserted_invariants fs fn st a).1
      simp [applyStmt, noDiscardList, noDiscard, h1, h2]
  | Stmt.ifStmt c body =>
      have h := applyStmts_noDiscard fs fn st body
      simp [applyStmt, noDiscardList, noDiscard, h]
  | Stmt.funcLit body =>
      have h := applyStmts_noDiscard fs fn st body
      simp [applyStmt, noDiscardList, noDiscard, h]
  | Stmt.ret rs => rfl
  | Stmt.exprStmt e => rfl
  | Stmt.skip => rfl

theorem applyStmts_noDiscard (fs : GoScope) (fn : FuncDecl) (st : PassState)
    (l : List Stmt) : noDiscardList (applyStmts fs fn st l).1 = true := by
  match l with
  | [] => rfl
  | s :: rest =>
      have h1 := applyStmt_noDiscard fs fn st s
      have h2 := applyStmts_noDiscard fs fn (applyStmt fs fn st s).2 rest
      simp [applyStmts, noDiscardList_append, h1, h2]
end

/-! ## The `err` introduction budget: at most one fresh introduction
per routine -/

/-- Basic facts packaged from a discard candidacy: the selected slot is
in range, its target is the placeholder, and the operator is `:=` or
`=`. -/
theorem discard_facts (a : AssignStmt) (hc : isDiscardCandidate a = true) :
    (getErrorIndex a).getD 0 < a.lhs.length ∧
    isIgnored (a.lhs.getD ((getErrorIndex a).getD 0) Expr.otherExpr) = true ∧
    (a.tok == Tok.define || a.tok == Tok.assign) = true := by
  unfold isDiscardCandidate at hc
  simp only [Bool.and_eq_true] at hc
  obtain ⟨h1, h2⟩ := hc
  cases hge : getErrorIndex a with
  | none => rw [hge] at h2; cases h2
  | some j =>
      rw [hge] at h2
      exact ⟨lt_of_isIgnored_getD _ _ h2, h2, h1⟩

/-- With a single left-hand target the loop of `anyOtherNewVariables`
skips its only index. -/
theorem anyOther_zero_single (a : AssignStmt) (h : a.lhs.length = 1) :
    anyOtherNewVariables a 0 = false := by
  unfold anyOtherNewVariables
  rw [h]
  rfl

/-- With `err` not yet bound the resolved operator of a discard
candidate is always `:=` (either kept or promoted). -/
theorem decideTok_not_declared (a : AssignStmt) (j : Nat)
    (htok : (a.tok == Tok.define || a.tok == Tok.assign) = true) :
    decideTok a j false = Tok.define := by
  unfold decideTok
  cases ht : a.tok <;> simp_all

/-- With `err` already bound a rewritten discard candidate is never a
demotion candidate: a multi-target statement fails the single-target
shape, and a single-target one is always demoted to `=` because
`anyOtherNewVariables` is false there. -/
theorem applyAssign_discard_declared_not_demotion (fs : GoScope) (fn : FuncDecl)
    (st : PassState) (a : AssignStmt) (hc : isDiscardCandidate a = true)
    (hdecl : (st.errIntroduced || lookupScope fs "err") = true) :
    isDemotionCandidate (applyAssign fs fn st a).1 = false := by
  rw [applyAssign_discard_assign fs fn st a hc]
  cases hdem : isDemotionCandidate _ with
  | false => rfl
  | true =>
      exfalso
      obtain ⟨htok, d, hlhs⟩ := (isDemotionCandidate_iff _).mp hdem
      dsimp at htok hlhs
      have hlen : a.lhs.length = 1 := by
        have := congrArg List.length hlhs
        simpa using this
      have hj : (getErrorIndex a).getD 0 = 0 := by
        have := (discard_facts a hc).1
        omega
      rw [hj] at htok
      have hao : anyOtherNewVariables a 0 = false := anyOther_zero_single a hlen
      rw [hdecl] at htok
      unfold decideTok at htok
      rw [hao] at htok
      cases ht : a.tok <;> rw [ht] at htok <;> simp_all

/-- Per-statement budget for demotion candidates surviving в the
output: each one consumes the routine's remaining fresh-introduction
budget. -/
theorem applyAssign_dem_budget (fs : GoScope) (fn : FuncDecl) (st : PassState)
    (a : AssignStmt) :
    ((if isDemotionCandidate (applyAssign fs fn st a).1 then 1 else 0) +
      demCountList (applyAssign fs fn st a).2.1) +
      remainingIntro fs (applyAssign fs fn st a).2.2 ≤ remainingIntro fs st := by
  have hins := (applyAssign_inserted_invariants fs fn st a).2.1
  rw [hins]
  cases hc : isDiscardCandidate a with
  | true =>
      have hstate := applyAssign_discard_state fs fn st a hc
      cases hdecl : (st.errIntroduced || lookupScope fs "err") with
      | true =>
          have hnd := applyAssign_discard_declared_not_demotion fs fn st a hc hdecl
          rw [hnd, hstate]
          unfold remainingIntro marksIntroduced
          simp [hdecl]
      | false =>
          have htok' := decideTok_not_declared a ((getErrorIndex a).getD 0)
            (discard_facts a hc).2.2
          rw [hstate]
          unfold remainingIntro marksIntroduced
          simp only [hdecl, htok']
          simp
          split <;> simp
  | false =>
      cases hd : isDemotionCandidate a with
      | true =>
          rw [applyAssign_demotion fs fn st a hc hd]
          unfold remainingIntro
          cases hdecl : (st.errIntroduced || lookupScope fs "err") with
          | true =>
              have hna : isDemotionCandidate { a with tok := Tok.assign } = false := by
                simp [isDemotionCandidate]
              simp [hdecl, hna]
          | false =>
              simp only [hdecl]
              simp
              split <;> simp
      | false =>
          rw [applyAssign_not_candidate fs fn st a hc hd]
          rw [hd]
          simp [remainingIntro]

mutual
theorem applyStmt_dem_budget (fs : GoScope) (fn : FuncDecl) (st : PassState) (s : Stmt) :
    demCountList (applyStmt fs fn st s).1 + remainingIntro fs (applyStmt fs fn st s).2 ≤
      remainingIntro fs st := by
  match s with
  | Stmt.assign a =>
      have h := applyAssign_dem_budget fs fn st a
      simp only [applyStmt, demCountList, demCount]
      omega
  | Stmt.ifStmt c body =>
      have h := applyStmts_dem_budget fs fn st body
      simp only [applyStmt, demCountList, demCount]
      omega
  | Stmt.funcLit body =>
      have h := applyStmts_dem_budget fs fn st body
      simp only [applyStmt, demCountList, demCount]
      omega
  | Stmt.ret rs => simp [applyStmt, demCountList, demCount]
  | Stmt.exprStmt e => simp [applyStmt, demCountList, demCount]
  | Stmt.skip => simp [applyStmt, demCountList, demCount]

theorem applyStmts_dem_budget (fs : GoScope) (fn : FuncDecl) (st : PassState)
    (l : List Stmt) :
    demCountList (applyStmts fs fn st l).1 + remainingIntro fs (applyStmts fs fn st l).2 ≤
      remainingIntro fs st := by
  match l with
  | [] => simp [applyStmts, demCountList]
  | s :: rest =>
      have h1 := applyStmt_dem_budget fs fn st s
      have h2 := applyStmts_dem_budget fs fn (applyStmt fs fn st s).2 rest
      simp only [applyStmts, demCountList_append]
      omega
end

/-! ## A second run of the pass is the identity -/

theorem decide_pos_add (x y : Nat) :
    decide (0 < x + y) = (decide (0 < x) || decide (0 < y)) := by
  by_cases hx : 0 < x <;> by_cases hy : 0 < y <;> simp [hx, hy]

/-- Pass-1 output invariants per declaration: after one run no discard
candidate remains and at most one demotion candidate per routine
survives (none when `err` is bound at the consulted scope). -/
theorem processDecls_invariant (fs : GoScope) (m : Bool) (i : List String)
    (ds : List FuncDecl) :
    ∀ fn' ∈ (processDecls fs m i ds).1,
      noDiscardList fn'.body = true ∧
      demCountList fn'.body ≤ (if lookupScope fs "err" then 0 else 1) := by
  induction ds generalizing m i with
  | nil => intro fn' h; simp [processDecls] at h
  | cons fn rest ih =>
      intro fn' h
      simp only [processDecls, List.mem_cons] at h
      rcases h with heq | hmem
      · subst heq
        constructor
        · exact applyStmts_noDiscard fs fn ⟨false, m, i⟩ fn.body
        · have hbud := applyStmts_dem_budget fs fn ⟨false, m, i⟩ fn.body
          unfold remainingIntro at hbud
          simp only [Bool.false_or] at hbud
          dsimp only
          omega
      · exact ih _ _ fn' hmem

mutual
/-- On a statement with no discard candidate and a demotion-candidate
count within the remaining budget, the applier changes nothing: the
statement is reproduced verbatim, nothing is inserted, and the modified
flag and import set are untouched (only the ledger may get marked by a
surviving demotion candidate). -/
theorem applyStmt_run2_id (fs : GoScope) (fn : FuncDecl) (st : PassState) (s : Stmt)
    (hnd : noDiscard s = true)
    (hbud : demCount s + (if st.errIntroduced || lookupScope fs "err" then 1 else 0) ≤ 1) :
    (applyStmt fs fn st s).1 = [s] ∧
    (applyStmt fs fn st s).2.modified = st.modified ∧
    (applyStmt fs fn st s).2.imports = st.imports ∧
    (applyStmt fs fn st s).2.errIntroduced =
      (st.errIntroduced || decide (0 < demCount s)) := by
  match s with
  | Stmt.assign a =>
      have hc : isDiscardCandidate a = false := by
        have := hnd
        unfold noDiscard at this
        simpa using this
      cases hd : isDemotionCandidate a with
      | true =>
          have hcount : demCount (Stmt.assign a) = 1 := by simp [demCount, hd]
          rw [hcount] at hbud
          have hdecl : (st.errIntroduced || lookupScope fs "err") = false := by
            cases h : (st.errIntroduced || lookupScope fs "err") with
            | false => rfl
            | true => rw [h] at hbud; simp at hbud
          have hei : st.errIntroduced = false := by
            cases h : st.errIntroduced with
            | false => rfl
            | true => rw [h] at hdecl; simp at hdecl
          simp only [applyStmt]
          rw [applyAssign_demotion fs fn st a hc hd, hdecl]
          refine ⟨by simp, by simp, by simp, ?_⟩
          rw [hcount, hei]
          simp
      | false =>
          simp only [applyStmt]
          rw [applyAssign_not_candidate fs fn st a hc hd]
          refine ⟨rfl, rfl, rfl, ?_⟩
          simp [demCount, hd]
  | Stmt.ifStmt c body =>
      have hb := applyStmts_run2_id fs fn st body
        (by unfold noDiscard at hnd; exact hnd)
        (by unfold demCount at hbud; exact hbud)
      simp only [applyStmt]
      refine ⟨by rw [hb.1], hb.2.1, hb.2.2.1, ?_⟩
      rw [hb.2.2.2]
      rfl
  | Stmt.funcLit body =>
      have hb := applyStmts_run2_id fs fn st body
        (by unfold noDiscard at hnd; exact hnd)
        (by unfold demCount at hbud; exact hbud)
      simp only [applyStmt]
      refine ⟨by rw [hb.1], hb.2.1, hb.2.2.1, ?_⟩
      rw [hb.2.2.2]
      rfl
  | Stmt.ret rs => exact ⟨rfl, rfl, rfl, by simp [applyStmt, demCount]⟩
  | Stmt.exprStmt e => exact ⟨rfl, rfl, rfl, by simp [applyStmt, demCount]⟩
  | Stmt.skip => exact ⟨rfl, rfl, rfl, by simp [applyStmt, demCount]⟩

theorem applyStmts_run2_id (fs : GoScope) (fn : FuncDecl) (st : PassState) (l : List Stmt)
    (hnd : noDiscardList l = true)
    (hbud : demCountList l + (if st.errIntroduced || lookupScope fs "err" then 1 else 0) ≤ 1) :
    (applyStmts fs fn st l).1 = l ∧
    (applyStmts fs fn st l).2.modified = st.modified ∧
    (applyStmts fs fn st l).2.imports = st.imports ∧
    (applyStmts fs fn st l).2.errIntroduced =
      (st.errIntroduced || decide (0 < demCountList l)) := by
  match l with
  | [] => exact ⟨rfl, rfl, rfl, by simp [applyStmts, demCountList]⟩
  | s :: rest =>
      have hnds : noDiscard s = true ∧ noDiscardList rest = true := by
        unfold noDiscardList at hnd
        simpa [Bool.and_eq_true] using hnd
      have hbudflat : demCount s + demCountList rest +
          (if st.errIntroduced || lookupScope fs "err" then 1 else 0) ≤ 1 := by
        unfold demCountList at hbud
        omega
      have h1 := applyStmt_run2_id fs fn st s hnds.1 (by omega)
      have hbudr : demCountList rest +
          (if (applyStmt fs fn st s).2.errIntroduced || lookupScope fs "err"
           then 1 else 0) ≤ 1 := by
        rw [h1.2.2.2]
        cases hdc : decide (0 < demCount s) with
        | false =>
            have h0 : demCount s = 0 := by
              have := of_decide_eq_false hdc
              omega
            rw [Bool.or_false]
            omega
        | true =>
            have h0 : 0 < demCount s := of_decide_eq_true hdc
            have hr0 : demCountList rest = 0 := by
              by_contra hne
              have : (if st.errIntroduced || lookupScope fs "err" then 1 else 0) ≥ 0 :=
                Nat.zero_le _
              omega
            simp [hr0]
      have h2 := applyStmts_run2_id fs fn (applyStmt fs fn st s).2 rest hnds.2 hbudr
      refine ⟨?_, ?_, ?_, ?_⟩
      · simp only [applyStmts]
        rw [h1.1, h2.1]
        rfl
      · simp only [applyStmts]
        rw [h2.2.1, h1.2.1]
      · simp only [applyStmts]
        rw [h2.2.2.1, h1.2.2.1]
      · simp only [applyStmts]
        rw [h2.2.2.2, h1.2.2.2]
        have hdemc : demCountList (s :: rest) = demCount s + demCountList rest := rfl
        rw [hdemc, decide_pos_add]
        simp [Bool.or_assoc]
end

/-- A second run over declarations already carrying the pass-1 output
invariants changes nothing at all. -/
theorem processDecls_run2_id (fs : GoScope) (m : Bool) (i : List String)
    (ds : List FuncDecl)
    (h : ∀ fn ∈ ds, noDiscardList fn.body = true ∧
         demCountList fn.body + (if lookupScope fs "err" then 1 else 0) ≤ 1) :
    processDecls fs m i ds = (ds, m, i) := by
  induction ds generalizing m i with
  | nil => rfl
  | cons fn rest ih =>
      have hfn := h fn (List.mem_cons_self _ _)
      have hid := applyStmts_run2_id fs fn ⟨false, m, i⟩ fn.body hfn.1
        (by simpa using hfn.2)
      simp only [processDecls]
      rw [hid.1, hid.2.1, hid.2.2.1]
      rw [ih _ _ (fun g hg => h g (List.mem_cons_of_mem _ hg))]

/-! ## Claim C2 -/

/-- C2 (amended): a second run of the pass on the first run's output is
the identity: it performs no modification, inserts nothing, adds no
import, and reports the unit as unmodified.  (`fs` is the file scope of
the first run and `fs'` that of the second; re-resolving the rewritten
unit can only add the `log` import name to the file scope, so the two
agree about `err`.)  The claim's stronger conjunct — that the second
run's scanner finds no candidates at all — fails: surviving `err :=`
statements are collected as demotion candidates again (see the
counterexample). -/
theorem c2_second_pass_is_identity :
    ∀ (fs fs' : GoScope) (f : File),
      lookupScope fs' "err" = lookupScope fs "err" →
      processFile fs' (processFile fs f).1 = ((processFile fs f).1, false) := by
  intro fs fs' f hsc
  have hinv := processDecls_invariant fs false f.imports f.decls
  have hid := processDecls_run2_id fs' false
      ((processDecls fs false f.imports f.decls).2.2)
      ((processDecls fs false f.imports f.decls).1)
      (by
        intro fn' hmem
        obtain ⟨hnd, hdem⟩ := hinv fn' hmem
        refine ⟨hnd, ?_⟩
        rw [hsc]
        cases hl : lookupScope fs "err" with
        | true => rw [hl] at hdem; simp at hdem ⊢; omega
        | false => rw [hl] at hdem; simp at hdem ⊢; omega)
  show processFile fs' ⟨(processDecls fs false f.imports f.decls).1,
      (processDecls fs false f.imports f.decls).2.2⟩ =
    (⟨(processDecls fs false f.imports f.decls).1,
      (processDecls fs false f.imports f.decls).2.2⟩, false)
  unfold processFile
  rw [hid]

/-- Witness for C2 (amended): a unit that run 1 genuinely rewrites
(two discard candidates); run 2 reproduces run 1's output and reports
no modification. -/
theorem c2_second_pass_is_identity_w :
    lookupScope ⟨[]⟩ "err" = lookupScope ⟨[]⟩ "err" ∧
    processFile ⟨[]⟩ (processFile ⟨[]⟩ fileC4).1 = ((processFile ⟨[]⟩ fileC4).1, false) :=
  ⟨rfl, c2_second_pass_is_identity ⟨[]⟩ ⟨[]⟩ fileC4 rfl⟩

/-- C2 (counterexample to the claim as stated): for a unit whose only
routine holds a single untouched `err := g(...)` statement, the first
run changes nothing, and the second run's scan still collects one
candidate (the same demotion candidate), contradicting "the second run
finds no further candidates". -/
theorem c2_second_scan_still_finds_candidates :
    (processFile ⟨[]⟩ fileC2).2 = false ∧
    (processFile ⟨[]⟩ fileC2).1.decls = fileC2.decls ∧
    candCountFile (processFile ⟨[]⟩ fileC2).1 = 1 :=
  ⟨rfl, rfl, rfl⟩

/-! ## Fresh `err` introductions in the output -/

/-- The loop of `anyOtherNewVariables` succeeds exactly when some
left-hand identifier at another index carries an original `info.Defs`
object. -/
theorem anyOther_spec (a : AssignStmt) (j : Nat) :
    anyOtherNewVariables a j = true ↔
      ∃ i n, i < a.lhs.length ∧ ¬ i = j ∧
        a.lhs.getD i Expr.otherExpr = Expr.ident n true := by
  unfold anyOtherNewVariables
  rw [List.any_eq_true]
  constructor
  · rintro ⟨i, hmem, hf⟩
    rw [List.mem_range] at hmem
    split at hf
    · cases hf
    · rename_i hij
      split at hf
      · rename_i n d heq
        have hd : d = true := by simpa using hf
        exact ⟨i, n, hmem, by simpa using hij, by rw [heq, hd]⟩
      · cases hf
  · rintro ⟨i, n, hlt, hne, heq⟩
    refine ⟨i, List.mem_range.mpr hlt, ?_⟩
    rw [if_neg (by simpa using hne)]
    rw [heq]

/-- If the original statement binds no `err` and some other target is a
genuinely new binding, then after the slot replacement the statement
still carries a genuinely new non-`err` binding. -/
theorem hasOtherNew_set (a : AssignStmt) (j : Nat)
    (hno : lhsHasErr a = false)
    (ho : anyOtherNewVariables a j = true) (tok' : Tok) :
    hasOtherNewBinding ⟨tok', a.lhs.set j (Expr.ident "err" false), a.rhs⟩ = true := by
  obtain ⟨i, n, hlt, hne, heq⟩ := (anyOther_spec a j).mp ho
  unfold hasOtherNewBinding
  rw [List.any_eq_true]
  have hgd : (a.lhs.set j (Expr.ident "err" false)).getD i Expr.otherExpr =
      a.lhs.getD i Expr.otherExpr :=
    getD_set_of_ne a.lhs j i _ _ (fun h => hne h.symm)
  have hmem : Expr.ident n true ∈ a.lhs.set j (Expr.ident "err" false) := by
    rw [← heq, ← hgd]
    exact getD_mem_of_lt _ i _ (by rw [List.length_set]; exact hlt)
  refine ⟨Expr.ident n true, hmem, ?_⟩
  have hn : (n == "err") = false := by
    cases hb : (n == "err") with
    | false => rfl
    | true =>
        exfalso
        have hmem0 : Expr.ident n true ∈ a.lhs := by
          rw [← heq]
          exact getD_mem_of_lt _ i _ hlt
        have : lhsHasErr a = true := by
          unfold lhsHasErr
          rw [List.any_eq_true]
          exact ⟨Expr.ident n true, hmem0, by simpa using hb⟩
        rw [this] at hno
        cases hno
  have hnp : ¬ n = "err" := by
    intro hh
    rw [hh] at hn
    simp at hn
  simp [hnp]

/-- Per-statement budget for fresh `err` introductions, for statements
that did not already bind `err`: each fresh introduction consumes the
routine's remaining budget. -/
theorem applyAssign_fresh_budget (fs : GoScope) (fn : FuncDecl) (st : PassState)
    (a : AssignStmt) (hno : lhsHasErr a = false) :
    ((if isFreshErrIntro (applyAssign fs fn st a).1 then 1 else 0) +
      freshCountList (applyAssign fs fn st a).2.1) +
      remainingIntro fs (applyAssign fs fn st a).2.2 ≤ remainingIntro fs st := by
  have hins := (applyAssign_inserted_invariants fs fn st a).2.2
  rw [hins]
  cases hc : isDiscardCandidate a with
  | true =>
      have hstate := applyAssign_discard_state fs fn st a hc
      cases hdecl : (st.errIntroduced || lookupScope fs "err") with
      | false =>
          have htok' := decideTok_not_declared a ((getErrorIndex a).getD 0)
            (discard_facts a hc).2.2
          rw [hstate]
          unfold remainingIntro marksIntroduced
          simp only [hdecl, htok']
          simp
          split <;> simp
      | true =>
          have hfresh : isFreshErrIntro (applyAssign fs fn st a).1 = false := by
            rw [applyAssign_discard_assign fs fn st a hc]
            unfold isFreshErrIntro
            dsimp only
            cases hao : anyOtherNewVariables a ((getErrorIndex a).getD 0) with
            | true =>
                have hhas := hasOtherNew_set a ((getErrorIndex a).getD 0) hno hao
                simp [hhas]
            | false =>
                rw [hdecl]
                unfold decideTok
                rw [hao]
                cases ht : a.tok <;> simp
          rw [hfresh, hstate]
          unfold remainingIntro marksIntroduced
          simp [hdecl]
  | false =>
      cases hd : isDemotionCandidate a with
      | true =>
          exfalso
          obtain ⟨_, d, hlhs⟩ := (isDemotionCandidate_iff a).mp hd
          have : lhsHasErr a = true := by
            unfold lhsHasErr
            rw [List.any_eq_true]
            exact ⟨Expr.ident "err" d, by rw [hlhs]; simp, by simp⟩
          rw [this] at hno
          cases hno
      | false =>
          rw [applyAssign_not_candidate fs fn st a hc hd]
          have hfresh : isFreshErrIntro a = false := by
            unfold isFreshErrIntro
            rw [hno]
            simp
          rw [hfresh]
          simp [remainingIntro]

mutual
theorem applyStmt_fresh_budget (fs : GoScope) (fn : FuncDecl) (st : PassState) (s : Stmt)
    (hne : noErrLhs s = true) :
    freshCountList (applyStmt fs fn st s).1 + remainingIntro fs (applyStmt fs fn st s).2 ≤
      remainingIntro fs st := by
  match s with
  | Stmt.assign a =>
      have hno : lhsHasErr a = false := by
        unfold noErrLhs at hne
        simpa using hne
      have h := applyAssign_fresh_budget fs fn st a hno
      simp only [applyStmt, freshCountList, freshCount]
      omega
  | Stmt.ifStmt c body =>
      have h := applyStmts_fresh_budget fs fn st body (by unfold noErrLhs at hne; exact hne)
      simp only [applyStmt, freshCountList, freshCount]
      omega
  | Stmt.funcLit body =>
      have h := applyStmts_fresh_budget fs fn st body (by unfold noErrLhs at hne; exact hne)
      simp only [applyStmt, freshCountList, freshCount]
      omega
  | Stmt.ret rs => simp [applyStmt, freshCountList, freshCount]
  | Stmt.exprStmt e => simp [applyStmt, freshCountList, freshCount]
  | Stmt.skip => simp [applyStmt, freshCountList, freshCount]

theorem applyStmts_fresh_budget (fs : GoScope) (fn : FuncDecl) (st : PassState)
    (l : List Stmt) (hne : noErrLhsList l = true) :
    freshCountList (applyStmts fs fn st l).1 + remainingIntro fs (applyStmts fs fn st l).2 ≤
      remainingIntro fs st := by
  match l with
  | [] => simp [applyStmts, freshCountList]
  | s :: rest =>
      have hnes : noErrLhs s = true ∧ noErrLhsList rest = true := by
        unfold noErrLhsList at hne
        simpa [Bool.and_eq_true] using hne
      have h1 := applyStmt_fresh_budget fs fn st s hnes.1
      have h2 := applyStmts_fresh_budget fs fn (applyStmt fs fn st s).2 rest hnes.2
      simp only [applyStmts, freshCountList_append]
      omega
end

/-! ## Claim C4 -/

/-- Per-declaration version of the C4 bound. -/
theorem processDecls_fresh (fs : GoScope) (m : Bool) (i : List String)
    (ds : List FuncDecl)
    (h : ∀ fn ∈ ds, noErrLhsList fn.body = true) :
    ∀ fn' ∈ (processDecls fs m i ds).1, freshCountList fn'.body ≤ 1 := by
  induction ds generalizing m i with
  | nil => intro fn' hmem; simp [processDecls] at hmem
  | cons fn rest ih =>
      intro fn' hmem
      simp only [processDecls, List.mem_cons] at hmem
      rcases hmem with heq | hmem2
      · subst heq
        have hbud := applyStmts_fresh_budget fs fn ⟨false, m, i⟩ fn.body
          (h fn (List.mem_cons_self _ _))
        unfold remainingIntro at hbud
        simp only [Bool.false_or] at hbud
        dsimp only
        cases hl : lookupScope fs "err" with
        | true => rw [hl] at hbud; simp at hbud; omega
        | false => rw [hl] at hbud; simp at hbud; omega
      · exact ih _ _ (fun g hg => h g (List.mem_cons_of_mem _ hg)) fn' hmem2

/-- C4 (amended): provided the input unit itself never binds `err` on a
left-hand side, the pass freshly introduces `err` at most once per
routine: in the output, at most one statement of each routine binds
`err` with the binding-introduction operator while carrying no other
genuinely new left-hand binding.  (Any further `:=` statement binding
`err` does so only because another of its targets is a genuinely new
name, so `err` itself is re-used rather than re-introduced there; the
claim's stronger reading — that every later binding of `err` uses the
rebind operator — fails, see the counterexample.) -/
theorem c4_err_introduced_at_most_once :
    ∀ (fs : GoScope) (f : File),
      (∀ fn ∈ f.decls, noErrLhsList fn.body = true) →
      ∀ fn' ∈ (processFile fs f).1.decls, freshCountList fn'.body ≤ 1 := by
  intro fs f h fn' hmem
  exact processDecls_fresh fs false f.imports f.decls h fn' hmem

/-- Witness for C4 (amended). -/
theorem c4_err_introduced_at_most_once_w :
    (∀ fn ∈ fileC4.decls, noErrLhsList fn.body = true) ∧
    ∀ fn' ∈ (processFile ⟨[]⟩ fileC4).1.decls, freshCountList fn'.body ≤ 1 :=
  ⟨by decide, c4_err_introduced_at_most_once ⟨[]⟩ fileC4 (by decide)⟩

/-- C4 (counterexample to the claim as stated): two consecutive discard
candidates `x, _ := f(); y, _ := f()` (each with a genuinely new first
target) rewrite to two statements that both bind `err` with the
binding-introduction operator at the same lexical depth — the second
keeps `:=` because `y` is a genuinely new binding, so "every subsequent
assignment binding `err` uses the rebind operator" fails. -/
theorem c4_two_define_err_statements :
    (processFile ⟨[]⟩ fileC4).1.decls =
      [⟨"f", none,
        [Stmt.assign ⟨Tok.define, [Expr.ident "x" true, Expr.ident "err" false],
           [RhsExpr.call (GoCallType.tuple [tInt, tError])]⟩,
         Stmt.assign ⟨Tok.define, [Expr.ident "y" true, Expr.ident "err" false],
           [RhsExpr.call (GoCallType.tuple [tInt, tError])]⟩]⟩] := rfl

/-! ## The `log` import bookkeeping -/

theorem applyAssign_imports (fs : GoScope) (fn : FuncDecl) (st : PassState)
    (a : AssignStmt) :
    (applyAssign fs fn st a).2.2.imports =
      (if fn.name == "main" && isDiscardCandidate a then addImport "log" st.imports
       else st.imports) := by
  cases hc : isDiscardCandidate a with
  | true =>
      rw [applyAssign_discard_state fs fn st a hc]
      cases hm : fn.name == "main" <;> simp [hm]
  | false =>
      cases hd : isDemotionCandidate a with
      | true => rw [applyAssign_demotion fs fn st a hc hd]; simp
      | false => rw [applyAssign_not_candidate fs fn st a hc hd]; simp

/-- `astutil.AddImport` is idempotent. -/
theorem addImport_idem (p : String) (l : List String) :
    addImport p (addImport p l) = addImport p l := by
  cases hc : l.contains p with
  | true =>
      have hm : p ∈ l := by simpa using hc
      simp [addImport, hm]
  | false =>
      have hm : p ∉ l := by simpa using hc
      simp [addImport, hm]

mutual
/-- The import set after a statement: `log` is ensured exactly when the
walked declaration is named `main` and the statement holds a discard
candidate. -/
theorem applyStmt_imports (fs : GoScope) (fn : FuncDecl) (st : PassState) (s : Stmt) :
    (applyStmt fs fn st s).2.imports =
      (if fn.name == "main" && anyDiscard s then addImport "log" st.imports
       else st.imports) := by
  match s with
  | Stmt.assign a =>
      have h := applyAssign_imports fs fn st a
      simp only [applyStmt]
      rw [h]
      rfl
  | Stmt.ifStmt c body =>
      have h := applyStmts_imports fs fn st body
      simp only [applyStmt]
      rw [h]
      rfl
  | Stmt.funcLit body =>
      have h := applyStmts_imports fs fn st body
      simp only [applyStmt]
      rw [h]
      rfl
  | Stmt.ret rs => simp [applyStmt, anyDiscard]
  | Stmt.exprStmt e => simp [applyStmt, anyDiscard]
  | Stmt.skip => simp [applyStmt, anyDiscard]

theorem applyStmts_imports (fs : GoScope) (fn : FuncDecl) (st : PassState)
    (l : List Stmt) :
    (applyStmts fs fn st l).2.imports =
      (if fn.name == "main" && anyDiscardList l then addImport "log" st.imports
       else st.imports) := by
  match l with
  | [] => simp [applyStmts, anyDiscardList]
  | s :: rest =>
      have h1 := applyStmt_imports fs fn st s
      have h2 := applyStmts_imports fs fn (applyStmt fs fn st s).2 rest
      simp only [applyStmts]
      rw [h2, h1]
      have hcons : anyDiscardList (s :: rest) = (anyDiscard s || anyDiscardList rest) := rfl
      rw [hcons]
      cases hm : fn.name == "main" with
      | false => simp
      | true =>
          cases h1d : anyDiscard s with
          | false => simp
          | true =>
              cases h2d : anyDiscardList rest with
              | false => simp
              | true => simp [addImport_idem]
end

/-- The unit's import set after the pass: `log` is added (idempotently)
iff some declaration named `main` contains a discard candidate. -/
theorem processDecls_imports (fs : GoScope) (m : Bool) (i : List String)
    (ds : List FuncDecl) :
    (processDecls fs m i ds).2.2 =
      (if ds.any (fun fn => fn.name == "main" && anyDiscardList fn.body)
       then addImport "log" i else i) := by
  induction ds generalizing m i with
  | nil => simp [processDecls]
  | cons fn rest ih =>
      simp only [processDecls]
      rw [ih, applyStmts_imports]
      rw [List.any_cons]
      cases hm : (fn.name == "main" && anyDiscardList fn.body) with
      | false => simp
      | true =>
          cases hr : rest.any (fun fn => fn.name == "main" && anyDiscardList fn.body) with
          | false => simp
          | true => simp [addImport_idem]

/-- Adding `log` to a duplicate-free import set leaves it appearing
exactly once. -/
theorem count_addImport_nodup (l : List String) (h : l.Nodup) :
    (addImport "log" l).count "log" = 1 := by
  cases hc : l.contains "log" with
  | true =>
      have hm : "log" ∈ l := by simpa using hc
      have h1 : l.count "log" ≤ 1 := List.nodup_iff_count_le_one.mp h "log"
      have h2 : 0 < l.count "log" := List.count_pos_iff.mpr hm
      simp only [addImport]
      rw [if_pos hc]
      omega
  | false =>
      have hm : "log" ∉ l := by simpa using hc
      simp only [addImport]
      rw [if_neg (by rw [hc]; simp)]
      rw [List.count_append]
      simp [List.count_eq_zero.mpr hm]

/-! ## Claim C8 -/

/-- C8: for every error-discard candidate whose enclosing routine is
the entry routine, the applier inserts the fatal-log conditional
(`createErrorCheckForMain`) right after the rewritten statement and
never a return statement (the inserted check contains no return), and
the `log` import appears in the unit's import set exactly once even
when several candidates trigger its insertion. -/
theorem c8_main_termination_and_single_log_import :
    (∀ (fs : GoScope) (fn : FuncDecl) (st : PassState) (a : AssignStmt),
      isDiscardCandidate a = true → fn.name = "main" →
      (applyStmt fs fn st (Stmt.assign a)).1 =
        [Stmt.assign (applyAssign fs fn st a).1, createErrorCheckForMain]) ∧
    containsRet createErrorCheckForMain = false ∧
    (∀ (fs : GoScope) (f : File),
      f.imports.Nodup → hasMainDiscard f = true →
      ((processFile fs f).1.imports.count "log") = 1) := by
  refine ⟨?_, rfl, ?_⟩
  · intro fs fn st a hc hmain
    have hins := applyAssign_discard_inserted fs fn st a hc
    have hmm : (fn.name == "main") = true := by rw [hmain]; rfl
    rw [hmm] at hins
    have hins' : (applyAssign fs fn st a).2.1 = [createErrorCheckForMain] := by
      rw [hins]
      rfl
    simp [applyStmt, hins']
  · intro fs f hnodup hmain
    have himp : (processFile fs f).1.imports = addImport "log" f.imports := by
      unfold processFile
      dsimp only
      rw [processDecls_imports]
      unfold hasMainDiscard at hmain
      rw [hmain]
      rfl
    rw [himp]
    exact count_addImport_nodup f.imports hnodup

/-- Witness for C8: the `main` routine of `fileC8` has two discard
candidates; after the pass the `log` import appears exactly once. -/
theorem c8_main_termination_and_single_log_import_w :
    (isDiscardCandidate (aNew "x") = true ∧ fileC8.imports.Nodup ∧
     hasMainDiscard fileC8 = true) ∧
    (applyStmt ⟨[]⟩ ⟨"main", none, []⟩ ⟨false, false, []⟩ (Stmt.assign (aNew "x"))).1 =
      [Stmt.assign (applyAssign ⟨[]⟩ ⟨"main", none, []⟩ ⟨false, false, []⟩ (aNew "x")).1,
       createErrorCheckForMain] ∧
    ((processFile ⟨[]⟩ fileC8).1.imports.count "log") = 1 :=
  ⟨⟨rfl, List.nodup_nil, rfl⟩,
   c8_main_termination_and_single_log_import.1 ⟨[]⟩ ⟨"main", none, []⟩ ⟨false, false, []⟩
     (aNew "x") rfl rfl,
   c8_main_termination_and_single_log_import.2.2 ⟨[]⟩ fileC8 List.nodup_nil rfl⟩

end Gothrow
